import Mathlib

set_option linter.unusedVariables false

/-!
Verification development for the Nuke Deadline submission plugin
(`client/ayon_deadline/plugins/publish/nuke/submit_nuke_deadline.py`).

The Python code is shallowly embedded below: strings are `List Char` or
`String`, Python dicts (which preserve insertion order) are association
lists over `String`, raised exceptions are explicit values, and every
function is an executable Lean `def` translated from the source.
-/

/-! ## Python primitive helpers -/

/-- Decimal digits of a natural number, most significant first, computed with
explicit fuel so that recursion is structural.  Models Python `str(n)` for a
non-negative `n` (together with `natToChars`). -/
def natDigitsAux : Nat → Nat → List Char
  | 0, _ => []
  | fuel + 1, n =>
    if n = 0 then [] else natDigitsAux fuel (n / 10) ++ [Char.ofNat (48 + n % 10)]

/-- Decimal representation of a natural number, models Python `str(n)`. -/
def natToChars (n : Nat) : List Char :=
  if n = 0 then ['0'] else natDigitsAux n n

/-- Decimal representation of an integer, models Python `str(i)`. -/
def intStr (i : Int) : List Char :=
  if i < 0 then '-' :: natToChars i.natAbs else natToChars i.natAbs

/-- Numeric value of a run of decimal digit characters (how Python's `%`
formatting reads the width field of a conversion specifier). -/
def digitsToNat (ds : List Char) : Nat :=
  ds.foldl (fun n c => n * 10 + (c.toNat - 48)) 0

/-- Python `"%0Nd" % i`: decimal representation of `i` left-padded with zeros
to total width `w` (a leading minus sign counts towards the width). -/
def zeroPadInt (w : Nat) (i : Int) : List Char :=
  if i < 0 then
    '-' :: (List.replicate (w - 1 - (natToChars i.natAbs).length) '0' ++ natToChars i.natAbs)
  else
    List.replicate (w - (natToChars i.natAbs).length) '0' ++ natToChars i.natAbs

/-- Python `"%Nd" % i`: decimal representation of `i` left-padded with spaces
to total width `w`. -/
def spacePadInt (w : Nat) (i : Int) : List Char :=
  List.replicate (w - (intStr i).length) ' ' ++ intStr i

/-- Python `%`-formatting of a single integer argument into a format string.
Scans for the first `%` immediately followed by an optional digit run and the
conversion `d`; a leading `0` in the digit run selects zero padding.  This is
the fragment of `printf`-style formatting the plugin's templates use
(`"%04d"`-shaped placeholders produced by the hash conversion, or present in
the configured render path). -/
def pyFormatInt : List Char → Int → List Char
  | [], _ => []
  | c :: rest, i =>
    if c = '%' then
      match rest.span (fun d => d.isDigit) with
      | (digs, d :: rest3) =>
        if d = 'd' then
          (if digs.headD ' ' = '0' then zeroPadInt (digitsToNat digs) i
           else spacePadInt (digitsToNat digs) i) ++ rest3
        else c :: pyFormatInt rest i
      | (_, []) => c :: pyFormatInt rest i
    else c :: pyFormatInt rest i

/-- Python `needle in haystack` on strings: substring containment. -/
def pyInStr (needle : List Char) : List Char → Bool
  | [] => needle.isEmpty
  | c :: cs => needle.isPrefixOf (c :: cs) || pyInStr needle cs

/-- Python `s.replace("", rep)`: the replacement is interspersed before every
character and appended at the end. -/
def replaceEmpty (rep : List Char) : List Char → List Char
  | [] => rep
  | c :: cs => rep ++ c :: replaceEmpty rep cs

/-- Work loop of Python `s.replace(pat, rep)` for a non-empty `pat`:
left-to-right, non-overlapping.  Fuel-indexed so recursion is structural;
`fuel = s.length` is always sufficient because every step consumes at least
one character of the scanned suffix. -/
def pyReplaceFuel (pat rep : List Char) : Nat → List Char → List Char
  | 0, s => s
  | _ + 1, [] => []
  | fuel + 1, c :: cs =>
    if pat.isPrefixOf (c :: cs) then
      rep ++ pyReplaceFuel pat rep fuel ((c :: cs).drop pat.length)
    else c :: pyReplaceFuel pat rep fuel cs

/-- Python `s.replace(pat, rep)`. -/
def pyReplace (pat rep s : List Char) : List Char :=
  if pat.isEmpty then replaceEmpty rep s else pyReplaceFuel pat rep s.length s

/-- `os.path.basename` for POSIX paths: everything after the last slash. -/
def posixBasename (p : List Char) : List Char :=
  (p.reverse.takeWhile (fun c => ¬ (c = '/'))).reverse

/-- `os.path.dirname` for POSIX paths: everything up to the last slash, with
trailing slashes stripped unless the head consists only of slashes. -/
def posixDirname (p : List Char) : List Char :=
  let head := (p.reverse.dropWhile (fun c => ¬ (c = '/'))).reverse
  if head = [] then []
  else if head.all (fun c => c = '/') then head
  else (head.reverse.dropWhile (fun c => c = '/')).reverse

/-- `os.path.join(a, b)` for POSIX paths (two-argument form). -/
def posixJoin (a b : List Char) : List Char :=
  if b.headD ' ' = '/' then b
  else if a = [] then b
  else if a.getLastD ' ' = '/' then a ++ b
  else a ++ '/' :: b

/-- Python `s.split(sep)` for a one-character separator: splits at every
occurrence, keeping empty parts (`"".split(sep) == [""]`). -/
def splitOnChar (sep : Char) : List Char → List (List Char)
  | [] => [[]]
  | c :: cs =>
    match splitOnChar sep cs with
    | [] => [[]]
    | p :: ps => if c = sep then [] :: p :: ps else (c :: p) :: ps

/-- `path.replace("\\", "/")` acts characterwise for a one-character pattern. -/
def backslashToSlash (c : Char) : Char :=
  if c = '\\' then '/' else c

/-- Python `range(start_frame, end_frame + 1)` over integers, in order. -/
def frameRange (start_frame end_frame : Int) : List Int :=
  (List.range (end_frame + 1 - start_frame).toNat).map (fun k : Nat => start_frame + (k : Int))

/-! ## Python dict model

Ordered association lists over `String`, mirroring insertion-ordered Python
dicts: `dictSet` overwrites the first binding of an existing key in place and
appends a fresh key at the end; `dictUpdate` is `dict.update`. -/

/-- `d[k]` / `d.get(k)`. -/
def dictGet : List (String × String) → String → Option String
  | [], _ => none
  | (k', v) :: rest, k => if k' = k then some v else dictGet rest k

/-- `d[k] = v`. -/
def dictSet : List (String × String) → String → String → List (String × String)
  | [], k, v => [(k, v)]
  | (k', v') :: rest, k, v =>
    if k' = k then (k, v) :: rest else (k', v') :: dictSet rest k v

/-- `d1.update(d2)`. -/
def dictUpdate (d1 d2 : List (String × String)) : List (String × String) :=
  d2.foldl (fun d kv => dictSet d kv.1 kv.2) d1

/-- Keys of a dict are pairwise distinct (true of every real Python dict and
of every dict this model builds with `dictSet` from `[]`). -/
def dictNodup (d : List (String × String)) : Prop :=
  (d.map Prod.fst).Nodup

/-! ## Render directory creation (`payload_submit`, lines 223-227)

```python
try:
    # Ensure render folder exists
    os.makedirs(render_dir)
except OSError:
    pass
```

`os.makedirs` either succeeds or raises; the raised exception is either a
`FileExistsError` (a subclass of `OSError`, the directory already exists),
some other `OSError` (e.g. `PermissionError`, carrying an errno), or an
exception not derived from `OSError`. -/

inductive PyException where
  | fileExistsError : PyException
  | otherOSError : Nat → PyException
  | nonOSError : String → PyException
deriving DecidableEq

/-- Whether `except OSError` catches the exception. -/
def isOSError : PyException → Bool
  | PyException.fileExistsError => true
  | PyException.otherOSError _ => true
  | PyException.nonOSError _ => false

/-- The `try`/`except OSError: pass` block around `os.makedirs(render_dir)`:
given the outcome of the `makedirs` call, the outcome of the whole block. -/
def ensure_render_folder (makedirs_result : Except PyException Unit) :
    Except PyException Unit :=
  match makedirs_result with
  | Except.ok _ => Except.ok ()
  | Except.error e => if isOSError e then Except.ok () else Except.error e

/-! ## Environment search-and-replace (`payload_submit`, lines 338-344)

```python
if self.env_search_replace_values:
    for key, value in environment.items():
        for item in self.env_search_replace_values:
            environment[key] = value.replace(
                item["name"], item["value"]
            )
```

Note the inner loop reads the loop-local `value` (the value the key had when
the outer iteration started), not `environment[key]`, on every iteration. -/

structure SearchReplaceItem where
  name : String
  value : String

/-- The inner `for item in self.env_search_replace_values` loop for one key:
every iteration overwrites the entry with `value.replace(...)` applied to the
original `value`. -/
def applyItemsToValue (items : List SearchReplaceItem) (v : String) : String :=
  items.foldl (fun _ item => String.mk (pyReplace item.name.data item.value.data v.data)) v

/-- The whole search-and-replace pass over the environment dict. -/
def env_search_replace (items : List SearchReplaceItem)
    (environment : List (String × String)) : List (String × String) :=
  if items.isEmpty then environment
  else environment.map (fun kv => (kv.1, applyItemsToValue items kv.2))

/-! ## Dependency linking (`payload_submit`, lines 237-310)

Fields of the inline `payload["JobInfo"]` dict relevant to batch naming and
job dependencies.  `response_data` is the decoded JSON of a previous
submission (`None` defaults to `{}`); `idVal` is the value under its `_id`
key when that key is present, `propsBatch` the value under `Props.Batch`.
`JobDependency0 = none` models the key being absent from the payload. -/

structure SubmitResponse where
  idVal : Option String
  propsBatch : String

structure JobInfoPayload where
  BatchName : String
  Name : String
  Frames : String
  JobDependency0 : Option String

/-- Batch-name / job-name / frames / dependency portion of the payload built
by `payload_submit`, including the
`if response_data.get("_id"): payload["JobInfo"].update({...})` step
(Python truthiness: a missing `_id` key and an empty-string `_id` are both
falsy). -/
def payload_job_info (batch_name job_name : String) (start_frame end_frame : Int)
    (response_data : Option SubmitResponse) : JobInfoPayload :=
  let base : JobInfoPayload :=
    { BatchName := batch_name
      Name := job_name
      Frames := String.mk (intStr start_frame) ++ "-" ++ String.mk (intStr end_frame)
      JobDependency0 := none }
  match response_data with
  | none => base
  | some rd =>
    match rd.idVal with
    | none => base
    | some i =>
      if i = "" then base
      else { base with BatchName := rd.propsBatch, JobDependency0 := some i }

/-! ## Claim theorems C1-C3 -/

/-- C1: if a prior submission response carrying an identifier is supplied,
the constructed payload's `BatchName` is the prior job's `Props.Batch` and
its `JobDependency0` is the prior identifier; with no such response the
payload carries no job dependency and keeps its own batch name. -/
theorem c1_dependency_linking (bn jn : String) (sf ef : Int)
    (rd : Option SubmitResponse) :
    (∀ r i, rd = some r → r.idVal = some i → i ≠ "" →
        (payload_job_info bn jn sf ef rd).BatchName = r.propsBatch ∧
        (payload_job_info bn jn sf ef rd).JobDependency0 = some i) ∧
    ((rd = none ∨ ∃ r, rd = some r ∧ (r.idVal = none ∨ r.idVal = some "")) →
        (payload_job_info bn jn sf ef rd).JobDependency0 = none ∧
        (payload_job_info bn jn sf ef rd).BatchName = bn) := by
  constructor
  · rintro r i rfl hid hne
    simp [payload_job_info, hid, hne]
  · rintro (rfl | ⟨r, rfl, hid | hid⟩)
    · simp [payload_job_info]
    · simp [payload_job_info, hid]
    · simp [payload_job_info, hid]

/-- C1 witness: the spec's example, identifier `abc123` and batch `sceneA`,
plus the no-response case. -/
theorem c1_dependency_linking_witness :
    (payload_job_info "sceneB.nk" "render.exr" 1 10
        (some { idVal := some "abc123", propsBatch := "sceneA" })).BatchName = "sceneA" ∧
    (payload_job_info "sceneB.nk" "render.exr" 1 10
        (some { idVal := some "abc123", propsBatch := "sceneA" })).JobDependency0 =
      some "abc123" ∧
    (payload_job_info "sceneB.nk" "render.exr" 1 10 none).JobDependency0 = none := by
  refine ⟨?_, ?_, ?_⟩
  · exact ((c1_dependency_linking "sceneB.nk" "render.exr" 1 10 _).1 _ "abc123"
      rfl rfl (by decide)).1
  · exact ((c1_dependency_linking "sceneB.nk" "render.exr" 1 10 _).1 _ "abc123"
      rfl rfl (by decide)).2
  · exact ((c1_dependency_linking "sceneB.nk" "render.exr" 1 10 none).2 (Or.inl rfl)).1

/-- C2 counterexample: an OS-level failure other than directory-already-exists
(errno 13, permission denied) is also silently swallowed by the
`except OSError: pass` block, contradicting the claim that only the
already-exists failure is ignored and every other OS-level failure
propagates. -/
theorem c2_counterexample :
    ensure_render_folder (Except.error (PyException.otherOSError 13)) = Except.ok () ∧
    PyException.otherOSError 13 ≠ PyException.fileExistsError := by
  exact ⟨rfl, by decide⟩

/-- C2 amended: every `OSError` raised while creating the render directory
(already-exists or any other) is silently ignored; only exceptions that are
not `OSError`s propagate to the caller. -/
theorem c2_amended (e : PyException) :
    (isOSError e = true → ensure_render_folder (Except.error e) = Except.ok ()) ∧
    (isOSError e = false → ensure_render_folder (Except.error e) = Except.error e) ∧
    ensure_render_folder (Except.ok ()) = Except.ok () := by
  refine ⟨fun h => ?_, fun h => ?_, rfl⟩ <;> simp [ensure_render_folder, h]

/-- C2 amended, witness: the already-exists error is suppressed and a
non-OS-level error propagates. -/
theorem c2_amended_witness :
    ensure_render_folder (Except.error PyException.fileExistsError) = Except.ok () ∧
    ensure_render_folder (Except.error (PyException.nonOSError "KeyError")) =
      Except.error (PyException.nonOSError "KeyError") := by
  exact ⟨(c2_amended PyException.fileExistsError).1 rfl,
    (c2_amended (PyException.nonOSError "KeyError")).2.1 rfl⟩

/-- C3: the code evaluated at a failing input.  With rules
`a -> x` then `b -> y` and value `"ab"`, the loop leaves `"ay"` (only the
last rule is effective, because each inner iteration restarts from the
original `value`), while applying all configured replacements in sequence
would give `"xy"`. -/
theorem c3_search_replace_failing_input :
    env_search_replace [⟨"a", "x"⟩, ⟨"b", "y"⟩] [("K", "ab")] = [("K", "ay")] ∧
    pyReplace "b".data "y".data (pyReplace "a".data "x".data "ab".data) = "xy".data := by
  exact ⟨rfl, rfl⟩

/-! ## Limit-group resolution (`_get_limit_groups`, lines 496-524)

```python
captured_groups = []
for limit_group in limit_groups:
    lg_name = limit_group["name"]
    for node_class in limit_group["value"]:
        for node in nuke.allNodes(recurseGroups=True):
            if node.Class() not in node_class:
                continue
            if node["disable"].value():
                continue
            if lg_name not in captured_groups:
                captured_groups.append(lg_name)
return captured_groups
```

`nuke.allNodes(recurseGroups=True)` (all nodes of the scene graph, groups
recursed into) is modelled as the explicit node list `allNodes`; each node
carries its class name and its `disable` knob value.  Note that
`node.Class() not in node_class` is Python `in` on two strings: the node's
class must occur as a substring of the configured class entry. -/

structure NukeNode where
  cls : String
  disabled : Bool

structure LimitGroupRule where
  name : String
  value : List String

/-- `node.Class() in node_class` (substring containment). -/
def nodeMatches (node : NukeNode) (node_class : String) : Bool :=
  pyInStr node.cls.data node_class.data

/-- Body of the innermost `for node in nuke.allNodes(...)` loop. -/
def limitNodeStep (node_class lg_name : String) (captured : List String)
    (node : NukeNode) : List String :=
  if nodeMatches node node_class = false then captured
  else if node.disabled = true then captured
  else if lg_name ∈ captured then captured
  else captured ++ [lg_name]

/-- Body of the `for node_class in limit_group["value"]` loop. -/
def limitClassStep (allNodes : List NukeNode) (lg_name : String)
    (captured : List String) (node_class : String) : List String :=
  allNodes.foldl (limitNodeStep node_class lg_name) captured

/-- Body of the `for limit_group in limit_groups` loop. -/
def limitGroupStep (allNodes : List NukeNode) (captured : List String)
    (lg : LimitGroupRule) : List String :=
  lg.value.foldl (limitClassStep allNodes lg.name) captured

/-- `_get_limit_groups`. -/
def get_limit_groups (limit_groups : List LimitGroupRule)
    (allNodes : List NukeNode) : List String :=
  limit_groups.foldl (limitGroupStep allNodes) []

/-- A rule has at least one enabled node of the scene graph matching one of
its configured class entries. -/
def hasEnabledMatch (lg : LimitGroupRule) (allNodes : List NukeNode) : Bool :=
  lg.value.any (fun nc => allNodes.any (fun n => nodeMatches n nc && !n.disabled))

/-- Specification-side first-seen deduplication step. -/
def firstSeenStep (acc : List String) (x : String) : List String :=
  if x ∈ acc then acc else acc ++ [x]

/-- Keep the first occurrence of every element, preserving order. -/
def firstSeenDedup (l : List String) : List String :=
  l.foldl firstSeenStep []

theorem hasEnabledMatch_iff (lg : LimitGroupRule) (allNodes : List NukeNode) :
    hasEnabledMatch lg allNodes = true ↔
      ∃ nc ∈ lg.value, ∃ n ∈ allNodes, nodeMatches n nc = true ∧ n.disabled = false := by
  simp [hasEnabledMatch, List.any_eq_true, Bool.and_eq_true, Bool.not_eq_true']

theorem limitNodesFold (nc lg_name : String) (nodes : List NukeNode) :
    ∀ captured : List String,
      nodes.foldl (limitNodeStep nc lg_name) captured =
        if (∃ n ∈ nodes, nodeMatches n nc = true ∧ n.disabled = false) ∧ lg_name ∉ captured
        then captured ++ [lg_name] else captured := by
  induction nodes with
  | nil => intro captured; simp
  | cons n ns ih =>
    intro captured
    rw [List.foldl_cons, ih (limitNodeStep nc lg_name captured n)]
    cases hm : nodeMatches n nc with
    | false =>
      have hstep : limitNodeStep nc lg_name captured n = captured := by
        simp [limitNodeStep, hm]
      rw [hstep]
      have hiff : (∃ x ∈ n :: ns, nodeMatches x nc = true ∧ x.disabled = false) ↔
          (∃ x ∈ ns, nodeMatches x nc = true ∧ x.disabled = false) := by
        constructor
        · rintro ⟨x, hx, h1, h2⟩
          rcases List.mem_cons.mp hx with rfl | hx'
          · rw [hm] at h1; cases h1
          · exact ⟨x, hx', h1, h2⟩
        · rintro ⟨x, hx, h1, h2⟩
          exact ⟨x, List.mem_cons_of_mem _ hx, h1, h2⟩
      exact if_congr (and_congr_left' hiff.symm) rfl rfl
    | true =>
      cases hd : n.disabled with
      | true =>
        have hstep : limitNodeStep nc lg_name captured n = captured := by
          simp [limitNodeStep, hm, hd]
        rw [hstep]
        have hiff : (∃ x ∈ n :: ns, nodeMatches x nc = true ∧ x.disabled = false) ↔
            (∃ x ∈ ns, nodeMatches x nc = true ∧ x.disabled = false) := by
          constructor
          · rintro ⟨x, hx, h1, h2⟩
            rcases List.mem_cons.mp hx with rfl | hx'
            · rw [hd] at h2; cases h2
            · exact ⟨x, hx', h1, h2⟩
          · rintro ⟨x, hx, h1, h2⟩
            exact ⟨x, List.mem_cons_of_mem _ hx, h1, h2⟩
        exact if_congr (and_congr_left' hiff.symm) rfl rfl
      | false =>
        by_cases hmem : lg_name ∈ captured
        · have hstep : limitNodeStep nc lg_name captured n = captured := by
            simp [limitNodeStep, hm, hd, hmem]
          rw [hstep, if_neg (fun h => h.2 hmem), if_neg (fun h => h.2 hmem)]
        · have hstep : limitNodeStep nc lg_name captured n = captured ++ [lg_name] := by
            simp [limitNodeStep, hm, hd, hmem]
          rw [hstep, if_neg (fun h => h.2 (by simp)),
            if_pos ⟨⟨n, List.mem_cons_self n ns, hm, hd⟩, hmem⟩]

theorem limitClassFold (lg_name : String) (allNodes : List NukeNode)
    (classes : List String) :
    ∀ captured : List String,
      classes.foldl (limitClassStep allNodes lg_name) captured =
        if (∃ nc ∈ classes, ∃ n ∈ allNodes, nodeMatches n nc = true ∧ n.disabled = false)
            ∧ lg_name ∉ captured
        then captured ++ [lg_name] else captured := by
  induction classes with
  | nil => intro captured; simp
  | cons nc ncs ih =>
    intro captured
    rw [List.foldl_cons, ih (limitClassStep allNodes lg_name captured nc)]
    by_cases hP : ∃ n ∈ allNodes, nodeMatches n nc = true ∧ n.disabled = false
    · by_cases hmem : lg_name ∈ captured
      · have hstep : limitClassStep allNodes lg_name captured nc = captured := by
          simp only [limitClassStep]
          rw [limitNodesFold nc lg_name allNodes captured, if_neg (fun h => h.2 hmem)]
        rw [hstep, if_neg (fun h => h.2 hmem), if_neg (fun h => h.2 hmem)]
      · have hstep : limitClassStep allNodes lg_name captured nc = captured ++ [lg_name] := by
          simp only [limitClassStep]
          rw [limitNodesFold nc lg_name allNodes captured, if_pos ⟨hP, hmem⟩]
        rw [hstep, if_neg (fun h => h.2 (by simp)),
          if_pos ⟨⟨nc, List.mem_cons_self nc ncs, hP⟩, hmem⟩]
    · have hstep : limitClassStep allNodes lg_name captured nc = captured := by
        simp only [limitClassStep]
        rw [limitNodesFold nc lg_name allNodes captured, if_neg (fun h => hP h.1)]
      rw [hstep]
      have hiff : (∃ x ∈ nc :: ncs, ∃ n ∈ allNodes,
          nodeMatches n x = true ∧ n.disabled = false) ↔
          (∃ x ∈ ncs, ∃ n ∈ allNodes, nodeMatches n x = true ∧ n.disabled = false) := by
        constructor
        · rintro ⟨x, hx, hex⟩
          rcases List.mem_cons.mp hx with rfl | hx'
          · exact absurd hex hP
          · exact ⟨x, hx', hex⟩
        · rintro ⟨x, hx, hex⟩
          exact ⟨x, List.mem_cons_of_mem _ hx, hex⟩
      exact if_congr (and_congr_left' hiff.symm) rfl rfl

theorem get_limit_groups_foldl (allNodes : List NukeNode)
    (groups : List LimitGroupRule) :
    ∀ captured : List String,
      groups.foldl (limitGroupStep allNodes) captured =
        ((groups.filter (fun lg => hasEnabledMatch lg allNodes)).map
          (fun lg => lg.name)).foldl firstSeenStep captured := by
  induction groups with
  | nil => intro captured; simp
  | cons lg gs ih =>
    intro captured
    rw [List.foldl_cons, ih (limitGroupStep allNodes captured lg)]
    have hstep : limitGroupStep allNodes captured lg =
        if hasEnabledMatch lg allNodes = true ∧ lg.name ∉ captured
        then captured ++ [lg.name] else captured := by
      simp only [limitGroupStep]
      rw [limitClassFold lg.name allNodes lg.value captured]
      exact if_congr (and_congr_left' (hasEnabledMatch_iff lg allNodes).symm) rfl rfl
    rw [hstep]
    by_cases hM : hasEnabledMatch lg allNodes = true
    · have hfil : List.filter (fun g => hasEnabledMatch g allNodes) (lg :: gs) =
          lg :: List.filter (fun g => hasEnabledMatch g allNodes) gs := by
        simp [List.filter_cons, hM]
      rw [hfil, List.map_cons, List.foldl_cons]
      have hcoll : (if hasEnabledMatch lg allNodes = true ∧ lg.name ∉ captured
          then captured ++ [lg.name] else captured) = firstSeenStep captured lg.name := by
        by_cases hmem : lg.name ∈ captured
        · rw [if_neg (fun h => h.2 hmem), firstSeenStep, if_pos hmem]
        · rw [if_pos ⟨hM, hmem⟩, firstSeenStep, if_neg hmem]
      rw [hcoll]
    · have hfil : List.filter (fun g => hasEnabledMatch g allNodes) (lg :: gs) =
          List.filter (fun g => hasEnabledMatch g allNodes) gs := by
        simp [List.filter_cons, hM]
      rw [hfil, if_neg (fun h => hM h.1)]

theorem foldl_firstSeenStep_mem (l : List String) :
    ∀ (acc : List String) (x : String),
      x ∈ l.foldl firstSeenStep acc ↔ x ∈ acc ∨ x ∈ l := by
  induction l with
  | nil => intro acc x; simp
  | cons a l ih =>
    intro acc x
    rw [List.foldl_cons, ih]
    have : x ∈ firstSeenStep acc a ↔ x ∈ acc ∨ x = a := by
      rw [firstSeenStep]
      by_cases hmem : a ∈ acc
      · rw [if_pos hmem]
        constructor
        · exact Or.inl
        · rintro (h | rfl)
          · exact h
          · exact hmem
      · rw [if_neg hmem]
        simp
    rw [this]
    simp [List.mem_cons]
    tauto

theorem foldl_firstSeenStep_nodup (l : List String) :
    ∀ acc : List String, acc.Nodup → (l.foldl firstSeenStep acc).Nodup := by
  induction l with
  | nil => intro acc h; simpa using h
  | cons a l ih =>
    intro acc h
    rw [List.foldl_cons]
    apply ih
    rw [firstSeenStep]
    by_cases hmem : a ∈ acc
    · rw [if_pos hmem]; exact h
    · rw [if_neg hmem, List.nodup_append]
      exact ⟨h, List.nodup_singleton a, by simpa [List.disjoint_singleton] using hmem⟩

/-! ## Claim theorems C5 and C10 -/

/-- C5: limit-group resolution equals first-seen deduplication of the names
of the configured rules that have at least one enabled matching node (so each
configured label appears at most once, in first-seen order); the result has
no duplicates; and a label is returned precisely when some configured rule
carries it and some enabled (non-disabled) node of the scene graph matches
one of that rule's class entries — in particular a label all of whose
matching nodes are disabled is absent. -/
theorem c5_limit_group_resolution (groups : List LimitGroupRule)
    (allNodes : List NukeNode) :
    get_limit_groups groups allNodes =
      firstSeenDedup ((groups.filter (fun g => hasEnabledMatch g allNodes)).map
        (fun g => g.name)) ∧
    (get_limit_groups groups allNodes).Nodup ∧
    (∀ lg_name, lg_name ∈ get_limit_groups groups allNodes ↔
      ∃ lg ∈ groups, lg.name = lg_name ∧
        ∃ nc ∈ lg.value, ∃ n ∈ allNodes, nodeMatches n nc = true ∧ n.disabled = false) := by
  have hmain : get_limit_groups groups allNodes =
      firstSeenDedup ((groups.filter (fun g => hasEnabledMatch g allNodes)).map
        (fun g => g.name)) := by
    rw [get_limit_groups, firstSeenDedup]
    exact get_limit_groups_foldl allNodes groups []
  refine ⟨hmain, ?_, ?_⟩
  · rw [hmain, firstSeenDedup]
    exact foldl_firstSeenStep_nodup _ [] List.nodup_nil
  · intro lg_name
    rw [hmain, firstSeenDedup, foldl_firstSeenStep_mem]
    simp only [List.mem_nil_iff, false_or, List.mem_map, List.mem_filter]
    constructor
    · rintro ⟨lg, ⟨hlg, hM⟩, rfl⟩
      exact ⟨lg, hlg, rfl, (hasEnabledMatch_iff lg allNodes).mp hM⟩
    · rintro ⟨lg, hlg, rfl, hex⟩
      exact ⟨lg, ⟨hlg, (hasEnabledMatch_iff lg allNodes).mpr hex⟩, rfl⟩

/-- C10: a scene node matches a configured class entry when the node's class
name occurs as a substring of the configured entry (Python `in` on strings),
not by exact equality: in a one-rule, one-enabled-node scene the label is
captured exactly when the node's class is a substring of the entry, so a node
of class `Write` matches the entry `WriteGeo`, while a node of class
`WriteGeo2` (not a substring, though sharing a prefix) does not. -/
theorem c10_substring_node_class_matching :
    (∀ (lg_name nc cls : String),
      get_limit_groups [{ name := lg_name, value := [nc] }]
          [{ cls := cls, disabled := false }] =
        if pyInStr cls.data nc.data = true then [lg_name] else []) ∧
    get_limit_groups [{ name := "nuke_limit", value := ["WriteGeo"] }]
        [{ cls := "Write", disabled := false }] = ["nuke_limit"] ∧
    get_limit_groups [{ name := "nuke_limit", value := ["WriteGeo"] }]
        [{ cls := "WriteGeo2", disabled := false }] = [] := by
  refine ⟨?_, by decide, by decide⟩
  intro lg_name nc cls
  cases hm : pyInStr cls.data nc.data with
  | false =>
    simp [get_limit_groups, limitGroupStep, limitClassStep, limitNodeStep, nodeMatches, hm]
  | true =>
    simp [get_limit_groups, limitGroupStep, limitClassStep, limitNodeStep, nodeMatches, hm]

/-! ## Job environment collection (`payload_submit`, lines 312-336)

```python
keys = ["NUKE_PATH", ..., "SHOT_LUT"]
if self.env_allowed_keys:
    keys += self.env_allowed_keys
nuke_specific_env = {
    key: os.environ[key] for key in keys if key in os.environ
}
environment = get_instance_job_envs(instance)
environment.update(get_ayon_render_job_envs())
environment.update(nuke_specific_env)
```

`get_instance_job_envs` and `get_ayon_render_job_envs` are external
collaborators (`ayon_deadline.lib`); their results, like `os.environ`, are
opaque dicts passed in as parameters. -/

/-- The hardcoded host-application environment allow-list. -/
def nukeEnvKeys : List String :=
  ["NUKE_PATH", "FOUNDRY_LICENSE", "PHAROS_LOCATION", "PHAROS_NUKELIB",
   "CCCID", "NUKE_FONT_PATH", "OCIO", "PROJECT_LUT", "SHOT_LUT"]

/-- `nuke_specific_env`: the dict comprehension over `keys` restricted to
keys present in `os.environ` (`keys += self.env_allowed_keys` appends the
configured allow-list; an empty configured list is falsy and skipped, which
coincides with appending nothing). -/
def nuke_specific_env (os_environ : List (String × String))
    (env_allowed_keys : List String) : List (String × String) :=
  (nukeEnvKeys ++ env_allowed_keys).foldl (fun d key =>
    match dictGet os_environ key with
    | some v => dictSet d key v
    | none => d) []

/-- The three environment overlays of `payload_submit`, in source order:
instance env, updated by the render-job env, updated by the host-application
allow-list env. -/
def collect_environment (instance_env render_job_env nuke_env : List (String × String)) :
    List (String × String) :=
  dictUpdate (dictUpdate instance_env render_job_env) nuke_env

theorem dictGet_dictSet_self (d : List (String × String)) (k v : String) :
    dictGet (dictSet d k v) k = some v := by
  induction d with
  | nil => simp [dictSet, dictGet]
  | cons kv rest ih =>
    obtain ⟨k', v'⟩ := kv
    by_cases h : k' = k
    · subst h; simp [dictSet, dictGet]
    · simp [dictSet, dictGet, h, ih]

theorem dictGet_dictSet_ne (d : List (String × String)) (k k2 v : String)
    (h : k2 ≠ k) : dictGet (dictSet d k2 v) k = dictGet d k := by
  induction d with
  | nil => simp [dictSet, dictGet, h]
  | cons kv rest ih =>
    obtain ⟨k', v'⟩ := kv
    by_cases h' : k' = k2
    · subst h'; simp [dictSet, dictGet, h]
    · simp [dictSet, dictGet, h', ih]

theorem dictKeys_dictSet (d : List (String × String)) (k v : String) :
    (dictSet d k v).map Prod.fst =
      if k ∈ d.map Prod.fst then d.map Prod.fst else d.map Prod.fst ++ [k] := by
  induction d with
  | nil => simp [dictSet]
  | cons kv rest ih =>
    obtain ⟨k', v'⟩ := kv
    by_cases h : k' = k
    · subst h; simp [dictSet]
    · have hne : ¬ (k = k') := fun hk => h hk.symm
      rw [List.map_cons]
      simp only [dictSet, if_neg h, List.map_cons, ih]
      by_cases hmem : k ∈ rest.map Prod.fst
      · rw [if_pos hmem, if_pos (by simp [hmem])]
      · rw [if_neg hmem, if_neg (by simp [hmem, hne]), List.cons_append]

theorem dictNodup_dictSet (d : List (String × String)) (k v : String)
    (h : dictNodup d) : dictNodup (dictSet d k v) := by
  rw [dictNodup, dictKeys_dictSet]
  by_cases hmem : k ∈ d.map Prod.fst
  · rwa [if_pos hmem]
  · rw [if_neg hmem, List.nodup_append]
    exact ⟨h, List.nodup_singleton k, by simpa [List.disjoint_singleton] using hmem⟩

theorem dictGet_dictUpdate_not_mem (d2 : List (String × String)) :
    ∀ (d1 : List (String × String)) (k : String), k ∉ d2.map Prod.fst →
      dictGet (dictUpdate d1 d2) k = dictGet d1 k := by
  induction d2 with
  | nil => intro d1 k _; rfl
  | cons kv rest ih =>
    intro d1 k hk
    obtain ⟨k2, v2⟩ := kv
    have hne : k2 ≠ k := by
      intro h; exact hk (by simp [h])
    have hrest : k ∉ rest.map Prod.fst := fun h => hk (by simp [h])
    show dictGet (dictUpdate (dictSet d1 k2 v2) rest) k = dictGet d1 k
    rw [ih (dictSet d1 k2 v2) k hrest, dictGet_dictSet_ne d1 k k2 v2 hne]

theorem dictGet_dictUpdate_mem (d2 : List (String × String)) :
    ∀ (d1 : List (String × String)) (k v : String), dictNodup d2 →
      dictGet d2 k = some v → dictGet (dictUpdate d1 d2) k = some v := by
  induction d2 with
  | nil => intro d1 k v _ hget; cases hget
  | cons kv rest ih =>
    intro d1 k v hnd hget
    obtain ⟨k2, v2⟩ := kv
    have hnd' := hnd
    rw [dictNodup, List.map_cons, List.nodup_cons] at hnd'
    by_cases h : k2 = k
    · subst h
      have hv : v2 = v := by
        rw [dictGet, if_pos rfl] at hget
        exact Option.some.inj hget
      subst hv
      show dictGet (dictUpdate (dictSet d1 k2 v2) rest) k2 = some v2
      rw [dictGet_dictUpdate_not_mem rest (dictSet d1 k2 v2) k2 hnd'.1]
      exact dictGet_dictSet_self d1 k2 v2
    · have hget' : dictGet rest k = some v := by
        rwa [dictGet, if_neg h] at hget
      show dictGet (dictUpdate (dictSet d1 k2 v2) rest) k = some v
      exact ih (dictSet d1 k2 v2) k v hnd'.2 hget'

theorem dictNodup_nuke_specific_env (os_environ : List (String × String))
    (env_allowed_keys : List String) :
    dictNodup (nuke_specific_env os_environ env_allowed_keys) := by
  rw [nuke_specific_env]
  generalize nukeEnvKeys ++ env_allowed_keys = keys
  have haux : ∀ (ks : List String) (d : List (String × String)), dictNodup d →
      dictNodup (ks.foldl (fun d key =>
        match dictGet os_environ key with
        | some v => dictSet d key v
        | none => d) d) := by
    intro ks
    induction ks with
    | nil => intro d h; exact h
    | cons key rest ih =>
      intro d h
      rw [List.foldl_cons]
      apply ih
      cases henv : dictGet os_environ key with
      | none => simpa [henv] using h
      | some v => simpa [henv] using dictNodup_dictSet d key v h
  exact haux keys [] (by simp [dictNodup])

/-! ## Claim theorem C6 -/

/-- C6: the job environment is collected as instance env, overlaid by the
render-job env, overlaid by the host-application allow-list env read from
the current process; consequently every key present both in the
instance-scoped env and in the host-application allow-list env resolves to
the host-application allow-list's value. -/
theorem c6_env_overlay_precedence (instance_env render_job_env os_environ :
      List (String × String)) (env_allowed_keys : List String) (key v w : String)
    (hhost : dictGet (nuke_specific_env os_environ env_allowed_keys) key = some v)
    (hinst : dictGet instance_env key = some w) :
    dictGet (collect_environment instance_env render_job_env
      (nuke_specific_env os_environ env_allowed_keys)) key = some v := by
  rw [collect_environment]
  exact dictGet_dictUpdate_mem _ _ key v
    (dictNodup_nuke_specific_env os_environ env_allowed_keys) hhost

/-- C6 witness: `NUKE_PATH` set both in the instance env and in the process
environment resolves to the process (host-application allow-list) value. -/
theorem c6_env_overlay_precedence_witness :
    dictGet (nuke_specific_env [("NUKE_PATH", "/opt/nuke")] []) "NUKE_PATH" =
      some "/opt/nuke" ∧
    dictGet [("NUKE_PATH", "/instance/nuke")] "NUKE_PATH" = some "/instance/nuke" ∧
    dictGet (collect_environment [("NUKE_PATH", "/instance/nuke")] []
      (nuke_specific_env [("NUKE_PATH", "/opt/nuke")] [])) "NUKE_PATH" =
        some "/opt/nuke" := by
  refine ⟨by decide, by decide, ?_⟩
  exact c6_env_overlay_precedence [("NUKE_PATH", "/instance/nuke")] []
    [("NUKE_PATH", "/opt/nuke")] [] "NUKE_PATH" "/opt/nuke" "/instance/nuke"
    (by decide) (by decide)

/-! ## Expected files resolver (`_expected_files`, lines 526-583)

```python
if instance.data["render_target"] == "frames_farm":
    return
if not instance.data.get("expectedFiles"):
    instance.data["expectedFiles"] = []
dirname = os.path.dirname(filepath)
file = os.path.basename(filepath)
for repre in representations:
    if "publish_on_farm" not in repre.get("tags", []):
        continue
    if file in repre.get("files", []):
        return
if "#" in file:
    pparts = file.split("#")
    padding = "%0{}d".format(len(pparts) - 1)
    file = pparts[0] + padding + pparts[-1]
if "%" not in file:
    instance.data["expectedFiles"].append(filepath)
    return
if instance.data.get("slate"):
    start_frame -= 1
for i in range(start_frame, (end_frame + 1)):
    instance.data["expectedFiles"].append(
        os.path.join(dirname, (file % i)).replace("\\", "/"))
```

The publishing framework's instance record is modelled by the fields this
plugin reads; the function's effect on `instance.data["expectedFiles"]` is
modelled by passing the current list in and returning the new list. -/

structure Repre where
  tags : List String
  files : List String

structure BakingScript where
  bakeRenderPath : String
  bakeScriptPath : String
  bakeWriteNodeName : String

structure InstanceData where
  render_target : String
  path : String
  frameStartHandle : Int
  frameEndHandle : Int
  slate : Bool
  representations : List Repre
  bakingNukeScripts : List BakingScript
  expectedFiles : List String

/-- Lines 564-569: hash-run to printf-placeholder conversion,
`file = pparts[0] + "%0{}d".format(len(pparts) - 1) + pparts[-1]`. -/
def hashConvert (file : List Char) : List Char :=
  if '#' ∈ file then
    let pparts := splitOnChar '#' file
    pparts.headD [] ++ ('%' :: '0' :: natToChars (pparts.length - 1) ++ ['d'])
      ++ pparts.getLastD []
  else file

/-- `_expected_files(instance, filepath, start_frame, end_frame)`:
returns the new `expectedFiles` list. -/
def expected_files_update (inst : InstanceData) (expectedFiles : List String)
    (filepath : String) (start_frame end_frame : Int) : List String :=
  if inst.render_target = "frames_farm" then expectedFiles
  else
    let dirname := posixDirname filepath.data
    let file := posixBasename filepath.data
    if ∃ repre ∈ inst.representations,
        "publish_on_farm" ∈ repre.tags ∧ String.mk file ∈ repre.files then
      expectedFiles
    else
      let file := hashConvert file
      if '%' ∉ file then expectedFiles ++ [filepath]
      else
        let start_frame := if inst.slate then start_frame - 1 else start_frame
        (frameRange start_frame end_frame).foldl (fun acc i =>
          acc ++ [String.mk ((posixJoin dirname (pyFormatInt file i)).map backslashToSlash)])
          expectedFiles

/-- `payload_submit` lines 361-371: before calling `_expected_files` the
local variables are rebound to the instance's own data —
`render_path = instance.data["path"]`,
`start_frame = int(instance.data["frameStartHandle"])`,
`end_frame = int(instance.data["frameEndHandle"])` — so the per-call
`render_path`/frame arguments do not reach the resolver. -/
def payload_submit_expected (inst : InstanceData) (expectedFiles : List String)
    (render_path : String) (start_frame end_frame : Int) : List String :=
  let render_path := inst.path
  let start_frame := inst.frameStartHandle
  let end_frame := inst.frameEndHandle
  expected_files_update inst expectedFiles render_path start_frame end_frame

/-- The `process` driver restricted to its effect on `expectedFiles`:
one `payload_submit` call for the main render job unless the render target
is `frames_farm` (lines 80-88), then one call per baking script
(lines 98-113). -/
def process_expected_files (inst : InstanceData) : List String :=
  let expectedFiles := inst.expectedFiles
  let expectedFiles :=
    if inst.render_target ≠ "frames_farm" then
      payload_submit_expected inst expectedFiles inst.path inst.frameStartHandle
        inst.frameEndHandle
    else expectedFiles
  inst.bakingNukeScripts.foldl
    (fun acc bs => payload_submit_expected inst acc bs.bakeRenderPath
      inst.frameStartHandle inst.frameEndHandle) expectedFiles

/-! ### Lemmas about `splitOnChar` -/

theorem splitOnChar_ne_nil (sep : Char) (l : List Char) : splitOnChar sep l ≠ [] := by
  cases l with
  | nil => simp [splitOnChar]
  | cons c cs =>
    simp only [splitOnChar]
    cases h : splitOnChar sep cs with
    | nil => simp
    | cons p ps => by_cases hc : c = sep <;> simp [hc]

theorem splitOnChar_of_not_mem (sep : Char) (l : List Char) (h : sep ∉ l) :
    splitOnChar sep l = [l] := by
  induction l with
  | nil => rfl
  | cons c cs ih =>
    have hc : ¬ (c = sep) := fun hc => h (hc ▸ List.mem_cons_self c cs)
    have hcs : sep ∉ cs := fun hm => h (List.mem_cons_of_mem c hm)
    simp [splitOnChar, ih hcs, hc]

theorem splitOnChar_sep_cons (sep : Char) (t : List Char) :
    splitOnChar sep (sep :: t) = [] :: splitOnChar sep t := by
  cases h : splitOnChar sep t with
  | nil => exact absurd h (splitOnChar_ne_nil sep t)
  | cons p ps => simp [splitOnChar, h]

theorem splitOnChar_replicate_append (sep : Char) (n : Nat) (t : List Char) :
    splitOnChar sep (List.replicate n sep ++ t) =
      List.replicate n [] ++ splitOnChar sep t := by
  induction n with
  | zero => simp
  | succ n ih =>
    rw [List.replicate_succ, List.cons_append, splitOnChar_sep_cons, ih,
      List.replicate_succ, List.cons_append]

theorem splitOnChar_prefix_append (sep : Char) (p : List Char) (hp : sep ∉ p)
    (t q : List Char) (qs : List (List Char))
    (ht : splitOnChar sep t = q :: qs) :
    splitOnChar sep (p ++ t) = (p ++ q) :: qs := by
  induction p with
  | nil => simpa using ht
  | cons c p' ih =>
    have hc : ¬ (c = sep) := fun h => hp (h ▸ List.mem_cons_self c p')
    have hp' : sep ∉ p' := fun h => hp (List.mem_cons_of_mem c h)
    simp [splitOnChar, ih hp', hc]

theorem splitOnChar_single_run (p s : List Char) (n : Nat) (hn : 1 ≤ n)
    (hp : '#' ∉ p) (hs : '#' ∉ s) :
    splitOnChar '#' (p ++ List.replicate n '#' ++ s) =
      p :: (List.replicate (n - 1) [] ++ [s]) := by
  obtain ⟨m, rfl⟩ : ∃ m, n = m + 1 := ⟨n - 1, by omega⟩
  have h1 : splitOnChar '#' (List.replicate (m + 1) '#' ++ s) =
      [] :: (List.replicate m [] ++ [s]) := by
    rw [splitOnChar_replicate_append, splitOnChar_of_not_mem '#' s hs,
      List.replicate_succ, List.cons_append]
  rw [List.append_assoc, splitOnChar_prefix_append '#' p hp _ _ _ h1]
  simp

/-! ## Claim theorem C4 -/

/-- C4: for a basename consisting of a prefix, a single run of `n ≥ 1`
consecutive hash characters and a suffix (prefix and suffix hash-free), the
conversion yields the same name with the run replaced by the zero-padded
placeholder `%0nd` — padding width equal to the run length — and the rest of
the filename unchanged; and concretely, a literal output path containing
`####` with start/end frames 1001-1005 produces the five paths
`render.1001.exr` … `render.1005.exr`. -/
theorem c4_hash_run_conversion :
    (∀ (p s : List Char) (n : Nat), 1 ≤ n → '#' ∉ p → '#' ∉ s →
      hashConvert (p ++ List.replicate n '#' ++ s) =
        p ++ ('%' :: '0' :: natToChars n ++ ['d']) ++ s) ∧
    expected_files_update
      { render_target := "farm", path := "/path/render.####.exr",
        frameStartHandle := 1001, frameEndHandle := 1005, slate := false,
        representations := [], bakingNukeScripts := [], expectedFiles := [] }
      [] "/path/render.####.exr" 1001 1005 =
      ["/path/render.1001.exr", "/path/render.1002.exr", "/path/render.1003.exr",
       "/path/render.1004.exr", "/path/render.1005.exr"] := by
  constructor
  · intro p s n hn hp hs
    have hmem : '#' ∈ p ++ List.replicate n '#' ++ s := by
      refine List.mem_append.mpr (Or.inl (List.mem_append.mpr (Or.inr ?_)))
      exact List.mem_replicate.mpr ⟨by omega, rfl⟩
    unfold hashConvert
    rw [if_pos hmem]
    simp only [splitOnChar_single_run p s n hn hp hs]
    have hlen : (p :: (List.replicate (n - 1) ([] : List Char) ++ [s])).length - 1 = n := by
      simp only [List.length_cons, List.length_append, List.length_replicate,
        List.length_nil]
      omega
    have hlast : (p :: (List.replicate (n - 1) ([] : List Char) ++ [s])).getLastD [] = s := by
      rw [← List.cons_append, List.getLastD_concat]
    rw [hlen, hlast, List.headD_cons]
  · decide

/-- C4 witness: the hash-run conversion applied to `render.####.exr`. -/
theorem c4_hash_run_conversion_witness :
    (1 ≤ 4 ∧ '#' ∉ "render.".data ∧ '#' ∉ ".exr".data) ∧
    hashConvert ("render.".data ++ List.replicate 4 '#' ++ ".exr".data) =
      "render.".data ++ ('%' :: '0' :: natToChars 4 ++ ['d']) ++ ".exr".data := by
  refine ⟨⟨by decide, by decide, by decide⟩, ?_⟩
  exact c4_hash_run_conversion.1 "render.".data ".exr".data 4
    (by decide) (by decide) (by decide)

/-! ### Lemmas about `pyFormatInt` on a single placeholder -/

theorem takeWhile_dropWhile_digits (s : List Char) :
    ∀ ds : List Char, (∀ c ∈ ds, c.isDigit = true) →
      (ds ++ 'd' :: s).takeWhile (fun d => d.isDigit) = ds ∧
      (ds ++ 'd' :: s).dropWhile (fun d => d.isDigit) = 'd' :: s := by
  intro ds
  induction ds with
  | nil =>
    intro _
    have hd : ('d').isDigit = false := by decide
    constructor <;> simp [List.takeWhile_cons, List.dropWhile_cons, hd]
  | cons c cs ih =>
    intro h
    have hc : c.isDigit = true := h c (List.mem_cons_self c cs)
    have hcs : ∀ x ∈ cs, x.isDigit = true := fun x hx => h x (List.mem_cons_of_mem c hx)
    obtain ⟨h1, h2⟩ := ih hcs
    constructor <;> simp [List.takeWhile_cons, List.dropWhile_cons, hc, h1, h2]

theorem span_digits (ds : List Char) (hds : ∀ c ∈ ds, c.isDigit = true)
    (s : List Char) :
    (('0' :: ds) ++ 'd' :: s).span (fun d => d.isDigit) = ('0' :: ds, 'd' :: s) := by
  have h0 : ∀ c ∈ '0' :: ds, c.isDigit = true := by
    intro c hc
    rcases List.mem_cons.mp hc with rfl | hc'
    · decide
    · exact hds c hc'
  obtain ⟨h1, h2⟩ := takeWhile_dropWhile_digits s ('0' :: ds) h0
  rw [List.span_eq_take_drop, h1, h2]

/-- `file % i` for a template `p ++ "%0" ++ ds ++ "d" ++ s` whose prefix is
percent-free and whose digit run is made of digits: the placeholder is
substituted by the zero-padded frame number. -/
theorem pyFormatInt_pattern (p ds s : List Char) (hp : '%' ∉ p)
    (hds : ∀ c ∈ ds, c.isDigit = true) (i : Int) :
    pyFormatInt (p ++ '%' :: (('0' :: ds) ++ 'd' :: s)) i =
      p ++ zeroPadInt (digitsToNat ('0' :: ds)) i ++ s := by
  induction p with
  | nil =>
    simp only [List.nil_append, pyFormatInt, if_pos rfl, span_digits ds hds s]
    simp
  | cons c p' ih =>
    have hc : ¬ (c = '%') := fun h => hp (h ▸ List.mem_cons_self c p')
    have hp' : '%' ∉ p' := fun h => hp (List.mem_cons_of_mem c h)
    have ih' := ih hp'
    simp only [List.cons_append] at ih' ⊢
    simp only [pyFormatInt, if_neg hc, ih']

theorem foldl_append_singleton (g : Int → String) (l : List Int) :
    ∀ acc : List String, l.foldl (fun a i => a ++ [g i]) acc = acc ++ l.map g := by
  induction l with
  | nil => intro acc; simp
  | cons x xs ih =>
    intro acc
    rw [List.foldl_cons, ih]
    simp

theorem frameRange_length (start_frame end_frame : Int) :
    (frameRange start_frame end_frame).length = (end_frame + 1 - start_frame).toNat := by
  simp [frameRange]

theorem frameRange_pairwise (start_frame end_frame : Int) :
    (frameRange start_frame end_frame).Pairwise (· < ·) := by
  rw [frameRange]
  refine List.Pairwise.map _ ?_ (List.pairwise_lt_range _)
  intro a b h
  show start_frame + (a : Int) < start_frame + (b : Int)
  omega

/-! ## Claim theorems C7 and C8 -/

/-- C7: for an output pattern with a numeric placeholder (`%0Nd`-shaped
basename, the form the hash conversion produces and the configured templates
use), the expansion covers every integer frame of `[start, end]`, starting
one frame earlier when the slate flag is set; so it appends
`end - start + 2` paths with slate and `end - start + 1` without, built by
substituting each frame in increasing order with forward slashes.  -/
theorem c7_slate_frame_expansion (inst : InstanceData) (expectedFiles : List String)
    (filepath : String) (start_frame end_frame : Int) (p ds s : List Char)
    (hrt : inst.render_target ≠ "frames_farm")
    (hskip : ¬ ∃ repre ∈ inst.representations,
      "publish_on_farm" ∈ repre.tags ∧ String.mk (posixBasename filepath.data) ∈ repre.files)
    (hbase : posixBasename filepath.data = p ++ '%' :: (('0' :: ds) ++ 'd' :: s))
    (hpPct : '%' ∉ p) (hpHash : '#' ∉ p) (hds : ∀ c ∈ ds, c.isDigit = true)
    (hsPct : '%' ∉ s) (hsHash : '#' ∉ s)
    (hrange : start_frame ≤ end_frame) :
    expected_files_update inst expectedFiles filepath start_frame end_frame =
      expectedFiles ++
        (frameRange (if inst.slate then start_frame - 1 else start_frame) end_frame).map
          (fun i => String.mk ((posixJoin (posixDirname filepath.data)
            (p ++ zeroPadInt (digitsToNat ('0' :: ds)) i ++ s)).map backslashToSlash)) ∧
    (expected_files_update inst expectedFiles filepath start_frame end_frame).length =
      expectedFiles.length +
        ((end_frame - start_frame + 1).toNat + if inst.slate then 1 else 0) ∧
    (frameRange (if inst.slate then start_frame - 1 else start_frame)
      end_frame).Pairwise (· < ·) := by
  have hnoHash : '#' ∉ posixBasename filepath.data := by
    rw [hbase]
    intro hmem
    rcases List.mem_append.mp hmem with h | h
    · exact hpHash h
    · rcases List.mem_cons.mp h with h1 | h1
      · exact absurd h1 (by decide)
      · rcases List.mem_append.mp h1 with h2 | h2
        · rcases List.mem_cons.mp h2 with h3 | h3
          · exact absurd h3 (by decide)
          · exact absurd (hds '#' h3) (by decide)
        · rcases List.mem_cons.mp h2 with h3 | h3
          · exact absurd h3 (by decide)
          · exact hsHash h3
  have hfile : hashConvert (posixBasename filepath.data) = posixBasename filepath.data := by
    unfold hashConvert
    rw [if_neg hnoHash]
  have hHasPct : '%' ∈ posixBasename filepath.data := by
    rw [hbase]
    exact List.mem_append.mpr (Or.inr (List.mem_cons_self _ _))
  have hmain : expected_files_update inst expectedFiles filepath start_frame end_frame =
      expectedFiles ++
        (frameRange (if inst.slate then start_frame - 1 else start_frame) end_frame).map
          (fun i => String.mk ((posixJoin (posixDirname filepath.data)
            (p ++ zeroPadInt (digitsToNat ('0' :: ds)) i ++ s)).map backslashToSlash)) := by
    simp only [expected_files_update]
    rw [if_neg hrt, if_neg hskip, hfile, if_neg (fun h => h hHasPct), hbase]
    simp only [pyFormatInt_pattern p ds s hpPct hds]
    exact foldl_append_singleton _ _ _
  refine ⟨hmain, ?_, frameRange_pairwise _ _⟩
  rw [hmain, List.length_append, List.length_map, frameRange_length]
  cases hsl : inst.slate
  · rw [if_neg (by decide : ¬ ((false : Bool) = true)),
      if_neg (by decide : ¬ ((false : Bool) = true))]
    omega
  · rw [if_pos rfl, if_pos rfl]
    omega

/-- C7 witness: slate set, pattern `comp.%04d.exr`, frames 1-3: four paths,
from frame 0 (one before the nominal start) through frame 3. -/
theorem c7_slate_frame_expansion_witness :
    ((1 : Int) ≤ 3) ∧
    expected_files_update
      { render_target := "farm", path := "/p/comp.%04d.exr",
        frameStartHandle := 1, frameEndHandle := 3, slate := true,
        representations := [], bakingNukeScripts := [], expectedFiles := [] }
      [] "/p/comp.%04d.exr" 1 3 =
      ["/p/comp.0000.exr", "/p/comp.0001.exr", "/p/comp.0002.exr", "/p/comp.0003.exr"] ∧
    (expected_files_update
      { render_target := "farm", path := "/p/comp.%04d.exr",
        frameStartHandle := 1, frameEndHandle := 3, slate := true,
        representations := [], bakingNukeScripts := [], expectedFiles := [] }
      [] "/p/comp.%04d.exr" 1 3).length = 4 := by
  have h := c7_slate_frame_expansion
    { render_target := "farm", path := "/p/comp.%04d.exr",
      frameStartHandle := 1, frameEndHandle := 3, slate := true,
      representations := [], bakingNukeScripts := [], expectedFiles := [] }
    [] "/p/comp.%04d.exr" 1 3 "comp.".data ['4'] ".exr".data
    (by decide) (by simp) (by decide) (by decide) (by decide) (by decide)
    (by decide) (by decide) (by decide)
  exact ⟨by decide, h.1.trans (by decide), h.2.1.trans (by decide)⟩

/-- C8: an output path whose basename contains neither `#` nor `%` makes the
resolver append exactly the literal path, once, whatever the frame range. -/
theorem c8_literal_single_append (inst : InstanceData) (expectedFiles : List String)
    (filepath : String) (start_frame end_frame : Int)
    (hrt : inst.render_target ≠ "frames_farm")
    (hskip : ¬ ∃ repre ∈ inst.representations,
      "publish_on_farm" ∈ repre.tags ∧ String.mk (posixBasename filepath.data) ∈ repre.files)
    (hHash : '#' ∉ posixBasename filepath.data)
    (hPct : '%' ∉ posixBasename filepath.data) :
    expected_files_update inst expectedFiles filepath start_frame end_frame =
      expectedFiles ++ [filepath] := by
  have hfile : hashConvert (posixBasename filepath.data) = posixBasename filepath.data := by
    unfold hashConvert
    rw [if_neg hHash]
  simp only [expected_files_update]
  rw [if_neg hrt, if_neg hskip, hfile, if_pos hPct]

/-- C8 witness: a video output `/p/out.mov` over frames 1-100 appends one
entry. -/
theorem c8_literal_single_append_witness :
    expected_files_update
      { render_target := "farm", path := "/p/out.mov",
        frameStartHandle := 1, frameEndHandle := 100, slate := false,
        representations := [], bakingNukeScripts := [], expectedFiles := [] }
      [] "/p/out.mov" 1 100 = ["/p/out.mov"] := by
  exact c8_literal_single_append _ [] "/p/out.mov" 1 100
    (by decide) (by simp) (by decide) (by decide)

/-! ## Claim theorem C9 -/

theorem expected_files_update_append (inst : InstanceData) (acc : List String)
    (filepath : String) (start_frame end_frame : Int) :
    expected_files_update inst acc filepath start_frame end_frame =
      acc ++ expected_files_update inst [] filepath start_frame end_frame := by
  by_cases h1 : inst.render_target = "frames_farm"
  · simp [expected_files_update, h1]
  · by_cases h2 : ∃ repre ∈ inst.representations, "publish_on_farm" ∈ repre.tags ∧
        String.mk (posixBasename filepath.data) ∈ repre.files
    · simp [expected_files_update, h1, h2]
    · by_cases h3 : '%' ∉ hashConvert (posixBasename filepath.data)
      · simp [expected_files_update, h1, h2, h3]
      · simp only [expected_files_update, if_neg h1, if_neg h2, if_neg h3]
        rw [foldl_append_singleton, foldl_append_singleton]
        simp

theorem foldl_payload_submit_expected (inst : InstanceData)
    (scripts : List BakingScript) :
    ∀ acc : List String,
      scripts.foldl (fun a bs => payload_submit_expected inst a bs.bakeRenderPath
          inst.frameStartHandle inst.frameEndHandle) acc =
        acc ++ (List.replicate scripts.length
          (expected_files_update inst [] inst.path inst.frameStartHandle
            inst.frameEndHandle)).flatten := by
  induction scripts with
  | nil => intro acc; simp
  | cons bs rest ih =>
    intro acc
    rw [List.foldl_cons, ih]
    have hstep : payload_submit_expected inst acc bs.bakeRenderPath
        inst.frameStartHandle inst.frameEndHandle =
        acc ++ expected_files_update inst [] inst.path inst.frameStartHandle
          inst.frameEndHandle :=
      expected_files_update_append inst acc inst.path inst.frameStartHandle
        inst.frameEndHandle
    rw [hstep]
    simp [List.length_cons, List.replicate_succ]

/-- C9: `payload_submit` resolves expected files from the instance's own
render path and frame range, ignoring the per-call `render_path` and frame
arguments entirely; consequently the `process` driver, which calls
`payload_submit` once for the main job and once per baking script, appends
the main render's expected-file sequence `N + 1` times for an instance with
`N` baking scripts (when the render target does not defer the main job). -/
theorem c9_expected_files_repeated_appends (inst : InstanceData) :
    (∀ (acc : List String) (render_path render_path' : String)
        (sf sf' ef ef' : Int),
      payload_submit_expected inst acc render_path sf ef =
        payload_submit_expected inst acc render_path' sf' ef') ∧
    (inst.render_target ≠ "frames_farm" →
      process_expected_files inst = inst.expectedFiles ++
        (List.replicate (inst.bakingNukeScripts.length + 1)
          (expected_files_update inst [] inst.path inst.frameStartHandle
            inst.frameEndHandle)).flatten) := by
  refine ⟨fun acc rp rp' sf sf' ef ef' => rfl, fun hrt => ?_⟩
  have hmainstep : payload_submit_expected inst inst.expectedFiles inst.path
      inst.frameStartHandle inst.frameEndHandle =
      inst.expectedFiles ++ expected_files_update inst [] inst.path
        inst.frameStartHandle inst.frameEndHandle :=
    expected_files_update_append inst inst.expectedFiles inst.path
      inst.frameStartHandle inst.frameEndHandle
  show inst.bakingNukeScripts.foldl _
      (if inst.render_target ≠ "frames_farm" then _ else _) = _
  rw [if_pos hrt, foldl_payload_submit_expected, hmainstep, List.replicate_succ]
  simp

/-- C9 witness: one instance with two baking scripts and a literal main
render path: the main path is appended three times (once per submission
call). -/
theorem c9_expected_files_repeated_appends_witness :
    ("farm" : String) ≠ "frames_farm" ∧
    process_expected_files
      { render_target := "farm", path := "/p/out.mov",
        frameStartHandle := 1, frameEndHandle := 3, slate := false,
        representations := [],
        bakingNukeScripts :=
          [{ bakeRenderPath := "/p/bake1.mov", bakeScriptPath := "/s/b1.nk",
             bakeWriteNodeName := "W1" },
           { bakeRenderPath := "/p/bake2.mov", bakeScriptPath := "/s/b2.nk",
             bakeWriteNodeName := "W2" }],
        expectedFiles := [] } =
      ["/p/out.mov", "/p/out.mov", "/p/out.mov"] := by
  refine ⟨by decide, ?_⟩
  exact ((c9_expected_files_repeated_appends
    { render_target := "farm", path := "/p/out.mov",
      frameStartHandle := 1, frameEndHandle := 3, slate := false,
      representations := [],
      bakingNukeScripts :=
        [{ bakeRenderPath := "/p/bake1.mov", bakeScriptPath := "/s/b1.nk",
           bakeWriteNodeName := "W1" },
         { bakeRenderPath := "/p/bake2.mov", bakeScriptPath := "/s/b2.nk",
           bakeWriteNodeName := "W2" }],
      expectedFiles := [] }).2 (by decide)).trans (by decide)
